import Mathlib

/-!
Verification development for the tex2utf refactored core
(`refactor/records.py`, `join.py`, `brackets.py`, `output.py`,
`stack.py`, `math_ops.py`, `commands.py`, `parser.py`, `config.py`).

Records are the core value type: the Python code encodes them as strings
of the shape height,length,baseline,spaces,content and re-parses the five
fields at every use.  The embedding below represents a record as the
five-field structure directly; every operation is translated line by line
from the Python source.  Python strings are modelled by Lean strings and
all primitive string operations (slicing, ljust, split, join, strip,
count) are implemented over the character list so that they are
kernel-computable and match Python code-point semantics.
-/

/-- Characters of a string. -/
def chars (s : String) : List Char := s.data

/-- Build a string from characters. -/
def ofChars (l : List Char) : String := String.mk l

/-- Python len() of a string (code points). -/
def strLen (s : String) : Nat := s.data.length

/-- Python s[:n]. -/
def pyTake (s : String) (n : Nat) : String := ofChars (s.data.take n)

/-- Python s[n:]. -/
def pyDrop (s : String) (n : Nat) : String := ofChars (s.data.drop n)

/-- Python " " * n. -/
def spaces (n : Nat) : String := ofChars (List.replicate n ' ')

/-- Python s.ljust(w). -/
def pyLjust (w : Nat) (s : String) : String :=
  ofChars (s.data ++ List.replicate (w - s.data.length) ' ')

/-- Python s.count(c) for a single character. -/
def countChar (c : Char) (s : String) : Nat := s.data.count c

/-- Python (c in s) for a single character. -/
def hasChar (c : Char) (s : String) : Bool := s.data.contains c

/-- ASCII whitespace as stripped by Python str.strip (and matched by regex \s). -/
def isPyWs (c : Char) : Bool :=
  c = ' ' || c = '\t' || c = '\n' || c = '\r' || c = '\x0b' || c = '\x0c'

/-- Python s.lstrip(). -/
def pyLstrip (s : String) : String := ofChars (s.data.dropWhile isPyWs)

/-- Python s.rstrip(). -/
def pyRstrip (s : String) : String :=
  ofChars ((s.data.reverse.dropWhile isPyWs).reverse)

/-- Split a character list on the newline character;
Python "x".split results, always nonempty. -/
def splitChars : List Char → List (List Char)
  | [] => [[]]
  | c :: rest =>
    match splitChars rest with
    | [] => [[]]
    | s :: ss => if c = '\n' then [] :: s :: ss else (c :: s) :: ss

/-- Python s.split(chr(10)). -/
def splitNl (s : String) : List String := (splitChars s.data).map ofChars

/-- Join character lists with a newline between them. -/
def joinChars : List (List Char) → List Char
  | [] => []
  | [x] => x
  | x :: y :: rest => x ++ '\n' :: joinChars (y :: rest)

/-- Python chr(10).join(lines). -/
def joinNl (ls : List String) : String := ofChars (joinChars (ls.map chars))

/-- Python: while len(lines) < h: lines.append(""). -/
def padTo (h : Nat) (ls : List String) : List String :=
  ls ++ List.replicate (h - ls.length) ""

/-- A Python for i in range(n) loop over a state, applying iterations in
ascending order of i. -/
def pyFor {α : Type} (n : Nat) (f : Nat → α → α) (a : α) : α :=
  match n with
  | 0 => a
  | m + 1 => f m (pyFor m f a)

/-- Python max() over a list of naturals (call sites guard nonemptiness). -/
def listMax (l : List Nat) : Nat := l.foldl max 0

/-- Python min() over a nonempty list of naturals. -/
def listMinNE : List Nat → Nat
  | [] => 0
  | x :: xs => xs.foldl min x

/-- Python abs(a - b) for integers held as naturals. -/
def natDist (a b : Nat) : Nat := max a b - min a b

/-- A record: the five fields of the height,length,baseline,spaces,content
encoding used throughout the Python source (records.py module docstring). -/
structure Rec where
  h : Nat
  l : Nat
  b : Nat
  sp : Nat
  s : String
deriving Repr, DecidableEq

/-- records.empty(): the record 0,0,0,0, . -/
def emptyRec : Rec := ⟨0, 0, 0, 0, ""⟩

/-- records.string2record(s, no_expand). -/
def string2record (no_expand : Bool) (s : String) : Rec :=
  if no_expand then ⟨1, strLen s, 0, 0, s⟩
  else ⟨0, strLen s, 0, if s.data = [] then 0 else countChar ' ' s, s⟩

/-- records.get_length(rec): the length field. -/
def get_length (r : Rec) : Nat := r.l

/-- records.get_height(rec): the height field, minimum 1. -/
def get_height (r : Rec) : Nat := if r.h > 0 then r.h else 1

/-- Effective height (the h1 = h1 or 1 coercion repeated across the source). -/
def hOf (r : Rec) : Nat := if r.h = 0 then 1 else r.h

/-- records.setbaseline(rec, new_b): rewrite the baseline field. -/
def setbaseline (r : Rec) (new_b : Nat) : Rec := ⟨r.h, r.l, new_b, r.sp, r.s⟩

/-- records.record_forcelength(rec, new_len): rewrite the length field. -/
def record_forcelength (r : Rec) (new_len : Nat) : Rec :=
  ⟨r.h, new_len, r.b, r.sp, r.s⟩

/-- records.cut(length, rec): split a record at a given width.
Python computes l2 = l - length and returns (rec, empty()) when l2 < 0. -/
def cut (length : Nat) (rec : Rec) : Rec × Rec :=
  if rec.l < length then (rec, emptyRec)
  else
    let l2 := rec.l - length
    if rec.h ≠ 0 then
      let lines0 := if rec.s.data = [] then List.replicate rec.h "" else splitNl rec.s
      let lines := padTo rec.h lines0
      let st1 := joinNl (lines.map (fun line => pyTake line length))
      let st2 := joinNl (lines.map (fun line => pyDrop line length))
      (⟨rec.h, length, rec.b, 0, st1⟩, ⟨rec.h, l2, rec.b, 0, st2⟩)
    else
      (⟨rec.h, length, rec.b, 0, pyTake rec.s length⟩,
       ⟨rec.h, l2, rec.b, 0, pyDrop rec.s length⟩)

/-- records.vStack(rec1, rec2): stack rec1 on top of rec2,
baseline at the bottom line of rec1. -/
def vStack (rec1 rec2 : Rec) : Rec :=
  let h1 := if rec1.h = 0 then 1 else rec1.h
  let h2 := if rec2.h = 0 then 1 else rec2.h
  let lines1 := padTo h1 (if rec1.s.data = [] then [""] else splitNl rec1.s)
  let lines2 := padTo h2 (if rec2.s.data = [] then [""] else splitNl rec2.s)
  ⟨h1 + h2, max rec1.l rec2.l, h1 - 1, 0, joinNl (lines1 ++ lines2)⟩

/-- records.center(length, rec): pad both sides to reach length;
returns rec unchanged when length - l1 <= 0. -/
def center (length : Nat) (rec : Rec) : Rec :=
  let h1 := if rec.h = 0 then 1 else rec.h
  let left : Int := (length : Int) - (rec.l : Int)
  if left ≤ 0 then rec
  else
    let left_pad := (left / 2).toNat
    let lines := padTo h1 (if rec.s.data = [] then [""] else splitNl rec.s)
    ⟨h1, length, rec.b, 0,
      joinNl (lines.map (fun line => pyLjust length (spaces left_pad ++ line)))⟩

/-- records.vputs(s, baseline): one character per line. -/
def vputs (s : String) (baseline : Nat) : Rec :=
  if s.data.length = 0 then emptyRec
  else ⟨s.data.length, 1, baseline, 0, joinNl (s.data.map (fun c => ofChars [c]))⟩

/-- Sum of record lengths, as computed in output.do_print. -/
def sumLens (l : List Rec) : Nat := l.foldl (fun a r => a + r.l) 0

/-- brackets.regenerate_angle_bracket(bracket_type, h, b): generate angle
bracket lines with the tip on row b; returns (lines, width).
Python max(b, h - b - 1) over ints equals the Nat form below because a
negative h - b - 1 loses to b >= 0. -/
def regenerate_angle_bracket (bracket_type : String) (h b : Nat) :
    List String × Nat :=
  let max_dist := max b (h - b - 1)
  let width := max_dist + 1
  let result_lines := (List.range h).map (fun row =>
    let dist := natDist row b
    if bracket_type = ofChars ['<'] then
      let col := dist
      let ch := if row < b then '⧸' else if row = b then '⟨' else '⧹'
      spaces col ++ ofChars [ch]
    else
      let col := width - 1 - dist
      let ch := if row < b then '⧹' else if row = b then '⟩' else '⧸'
      spaces col ++ ofChars [ch])
  let max_w := if result_lines = [] then 1 else listMax (result_lines.map strLen)
  (result_lines.map (pyLjust max_w), max_w)

/-- The angle-bracket detection for the left-tip glyph used in
join.join_records (is_left_angle). -/
def angleDetectL (content : String) (hOp : Nat) : Bool :=
  hasChar '⟨' content &&
    (hasChar '⧸' content || hasChar '⧹' content || hOp ≤ 2)

/-- The angle-bracket detection for the right-tip glyph used in
join.join_records (is_right_angle). -/
def angleDetectR (content : String) (hOp : Nat) : Bool :=
  hasChar '⟩' content &&
    (hasChar '⧸' content || hasChar '⧹' content || hOp ≤ 2)

/-- The full guard under which join_records regenerates an operand as an
angle bracket: the joined height exceeds the operand height, the operand
is at most 6 columns wide, and a tip glyph is detected in its content. -/
def regenFires (hTot hOp lOp : Nat) (content : String) : Bool :=
  (decide (hTot > hOp) && decide (lOp ≤ 6)) &&
    (angleDetectL content hOp || angleDetectR content hOp)

/-- The line list of an operand as computed at the top of join_records:
split the content on newlines (empty content gives no lines) and pad with
empty lines up to the effective height. -/
def joinLines (r : Rec) : List String :=
  padTo (hOf r) (if r.s.data = [] then [] else splitNl r.s)

/-- The in-branch body of the angle-bracket regeneration in
join_records (both operand blocks are textually identical in the source):
regenerate at the new height/baseline, re-add a left margin when the
original was wider and indented, and ljust all lines; returns the new
lines and the new operand width. -/
def regenAdjust (bracket_type : String) (hNew bNew origL bOp : Nat)
    (linesOp : List String) : List String × Nat :=
  let baseline_line := linesOp.getD bOp ""
  let leading_spaces := strLen baseline_line - strLen (pyLstrip baseline_line)
  let ra := regenerate_angle_bracket bracket_type hNew bNew
  let new_lines := ra.1
  let new_w := ra.2
  let adj : List String × Nat :=
    if new_w < origL then
      (if 0 < leading_spaces then
          new_lines.map (fun line => spaces (origL - new_w) ++ line)
        else new_lines, origL)
    else (new_lines, new_w)
  ((adj.1).map (pyLjust adj.2), adj.2)

/-- The new baseline computed by join_records: max of the operand baselines. -/
def joinB (rec1 rec2 : Rec) : Nat := max rec1.b rec2.b

/-- The new height computed by join_records:
b + max(h1 - b1 - 1, h2 - b2 - 1) + 1 over Python ints (the rows below
the baseline may be negative for degenerate records, hence Int). -/
def joinHeight (rec1 rec2 : Rec) : Nat :=
  let below1 : Int := (hOf rec1 : Int) - rec1.b - 1
  let below2 : Int := (hOf rec2 : Int) - rec2.b - 1
  ((joinB rec1 rec2 : Int) + max below1 below2 + 1).toNat

/-- The post-regeneration data of the left operand of join_records:
(lines, width, height, baseline). -/
def joinT1 (rec1 rec2 : Rec) : List String × Nat × Nat × Nat :=
  let h := joinHeight rec1 rec2
  let b := joinB rec1 rec2
  let h1 := hOf rec1
  let lines1 := joinLines rec1
  let content := joinNl lines1
  if regenFires h h1 rec1.l content then
    let bracket_type := if angleDetectL content h1 then ofChars ['<']
      else ofChars ['>']
    let ra := regenAdjust bracket_type h b rec1.l rec1.b lines1
    (ra.1, ra.2, h, b)
  else (lines1, rec1.l, h1, rec1.b)

/-- The post-regeneration data of the right operand of join_records. -/
def joinT2 (rec1 rec2 : Rec) : List String × Nat × Nat × Nat :=
  let h := joinHeight rec1 rec2
  let b := joinB rec1 rec2
  let h2 := hOf rec2
  let lines2 := joinLines rec2
  let content := joinNl lines2
  if regenFires h h2 rec2.l content then
    let bracket_type := if angleDetectL content h2 then ofChars ['<']
      else ofChars ['>']
    let ra := regenAdjust bracket_type h b rec2.l rec2.b lines2
    (ra.1, ra.2, h, b)
  else (lines2, rec2.l, h2, rec2.b)

/-- First placement loop of join_records: place the left operand rows
at b - b1 + i in a fresh list of h empty rows. -/
def joinPlace1 (b b1 l1 h h1 : Nat) (lines1 : List String) : List String :=
  pyFor h1 (fun i res =>
      let idx : Int := (b : Int) - b1 + i
      if 0 ≤ idx ∧ idx < (h : Int) then
        res.set idx.toNat (pyLjust l1 (lines1.getD i ""))
      else res)
    (List.replicate h "")

/-- Second loop of join_records: pad any row shorter than the left width. -/
def joinPad (l1 h : Nat) (res0 : List String) : List String :=
  pyFor h (fun i res =>
      if strLen (res.getD i "") < l1 then res.set i (pyLjust l1 (res.getD i ""))
      else res)
    res0

/-- Third loop of join_records: append the right operand rows at
b - b2 + i, truncating/padding the left part to the left width. -/
def joinPlace2 (b b2 l1 h h2 : Nat) (lines2 : List String)
    (res0 : List String) : List String :=
  pyFor h2 (fun i res =>
      let idx : Int := (b : Int) - b2 + i
      if 0 ≤ idx ∧ idx < (h : Int) then
        res.set idx.toNat
          (pyLjust l1 (pyTake (res.getD idx.toNat "") l1) ++ lines2.getD i "")
      else res)
    res0

/-- The full row list produced by join_records, after the baseline-row
fix on the right operand (an empty baseline row becomes l2 spaces). -/
def joinRows (rec1 rec2 : Rec) : List String :=
  let h := joinHeight rec1 rec2
  let b := joinB rec1 rec2
  let t1 := joinT1 rec1 rec2
  let t2 := joinT2 rec1 rec2
  let lines1 := t1.1
  let l1 := t1.2.1
  let h1 := t1.2.2.1
  let b1 := t1.2.2.2
  let lines2 := t2.1
  let l2 := t2.2.1
  let h2 := t2.2.2.1
  let b2 := t2.2.2.2
  let lines2f :=
    if b2 < lines2.length ∧ strLen (lines2.getD b2 "") = 0 then
      lines2.set b2 (spaces l2)
    else lines2
  joinPlace2 b b2 l1 h h2 lines2f (joinPad l1 h (joinPlace1 b b1 l1 h h1 lines1))

/-- join.join_records(rec1, rec2): horizontal join with baseline
alignment and the angle-bracket regeneration heuristic.  The length is
the sum of the (possibly regenerated) operand widths, the expandable
space count is the sum of the operand counts. -/
def join_records (rec1 rec2 : Rec) : Rec :=
  ⟨joinHeight rec1 rec2,
   (joinT1 rec1 rec2).2.1 + (joinT2 rec1 rec2).2.1,
   joinB rec1 rec2,
   rec1.sp + rec2.sp,
   joinNl (joinRows rec1 rec2)⟩

/-- config.linelength default. -/
def linelengthDefault : Nat := 150

/-- config.maxdef: macro expansion ceiling. -/
def maxdef : Nat := 400

/-- The runtime configuration consumed by the output stage. -/
structure Cfg where
  linelength : Nat
  opt_ragged : Bool
deriving Repr, DecidableEq

/-- A value held in state.wait: a closing token (string) or a chunk
count (int). -/
inductive Evt where
  | s (v : String)
  | n (v : Nat)
deriving Repr, DecidableEq

/-- The mutable interpreter state of the state module (the fields touched
by the embedded functions); printed accumulates the lines that
output.printrecord writes to stdout. -/
structure PState where
  level : List Nat
  chunks : List Int
  out : List Rec
  wait : List Evt
  action : List String
  tokenByToken : List Nat
  par : String
  curlength : Int
  printed : List String
deriving Repr, DecidableEq

def withOut (st : PState) (out : List Rec) : PState :=
  ⟨st.level, st.chunks, out, st.wait, st.action, st.tokenByToken, st.par,
   st.curlength, st.printed⟩

def withChunks (st : PState) (chunks : List Int) : PState :=
  ⟨st.level, chunks, st.out, st.wait, st.action, st.tokenByToken, st.par,
   st.curlength, st.printed⟩

def withCur (st : PState) (c : Int) : PState :=
  ⟨st.level, st.chunks, st.out, st.wait, st.action, st.tokenByToken, st.par,
   c, st.printed⟩

/-- Python list indexing with negative wrap-around; none is an IndexError. -/
def pyIdx {α : Type} (l : List α) (i : Int) : Option α :=
  if 0 ≤ i then l[i.toNat]?
  else
    let j := (l.length : Int) + i
    if 0 ≤ j then l[j.toNat]? else none

/-- Python list element assignment with negative wrap-around. -/
def pySetI {α : Type} (l : List α) (i : Int) (v : α) : Option (List α) :=
  if 0 ≤ i then
    if i.toNat < l.length then some (l.set i.toNat v) else none
  else
    let j := (l.length : Int) + i
    if 0 ≤ j then some (l.set j.toNat v) else none

/-- Python slice index normalisation. -/
def pySliceNorm (len : Nat) (i : Int) : Nat :=
  if i < 0 then ((len : Int) + i).toNat else min i.toNat len

/-- Python l[i:]. -/
def pyDropI {α : Type} (l : List α) (i : Int) : List α :=
  l.drop (pySliceNorm l.length i)

/-- Python l[:i]. -/
def pyTakeI {α : Type} (l : List α) (i : Int) : List α :=
  l.take (pySliceNorm l.length i)

/-- Python slice assignment l[a:b] = rep. -/
def pySplice {α : Type} (l : List α) (a b : Int) (rep : List α) : List α :=
  let na := pySliceNorm l.length a
  let nb := pySliceNorm l.length b
  l.take na ++ rep ++ l.drop (max na nb)

/-- Python list.pop(); none is an IndexError. -/
def pyPop {α : Type} (l : List α) : Option (List α) :=
  if l.isEmpty then none else some l.dropLast

/-- Turn an optional value into the exception a Python indexing error
would raise. -/
def need {α : Type} (o : Option α) : Except String α :=
  match o with
  | some a => Except.ok a
  | none => Except.error ("list index out of range")

/-- A Python for i in range(n) loop over exception-producing state. -/
def pyForM {α : Type} (n : Nat) (f : Nat → α → Except String α) (a : α) :
    Except String α :=
  match n with
  | 0 => Except.ok a
  | m + 1 => do f m (← pyForM m f a)

/-- One invocation of the closure built by output.exp_sp_maker(fr, re_val):
the counter state is (c1, c2); c1 is incremented, c2 is zeroed once
c1 exceeds re_val, and the match is replaced by c2 + fr + 1 spaces.
Note that c2 starts at 0 and is only ever set to 0. -/
def exp_sp (fr re_val : Nat) (c : Nat × Nat) : (Nat × Nat) × String :=
  let c1 := c.1 + 1
  let c2 := if re_val < c1 then 0 else c.2
  ((c1, c2), spaces (c2 + fr + 1))

/-- re.sub of a single space by the exp_sp closure over a character list,
threading the closure counters left to right. -/
def expandSpaces (fr re_val : Nat) :
    Nat × Nat → List Char → (Nat × Nat) × List Char
  | cst, [] => (cst, [])
  | cst, ch :: rest =>
    if ch = ' ' then
      let r1 := exp_sp fr re_val cst
      let r2 := expandSpaces fr re_val r1.1 rest
      (r2.1, chars r1.2 ++ r2.2)
    else
      let r2 := expandSpaces fr re_val cst rest
      (r2.1, ch :: r2.2)

/-- output.printrecord(rec): right-strip every line, drop blank lines,
remove the common indentation, and print; returns the printed text
(none when nothing is printed). -/
def printrecord (r : Rec) : Option String :=
  let lines0 := splitNl r.s
  let lines := (lines0.map pyRstrip).filter (fun line => !line.data.isEmpty)
  if lines.isEmpty then none
  else
    let leads := lines.map (fun line => strLen line - strLen (pyLstrip line))
    let min_indent := listMinNE leads
    let lines2 :=
      if 0 < min_indent then
        lines.map (fun line =>
          if min_indent ≤ strLen line then pyDrop line min_indent else line)
      else lines
    some (joinNl lines2)

/-- output.do_print(force): justify the buffered records when the line is
short and ragged mode is off, join them, print, and clear the printed
portion of the buffer. -/
def do_print (cfg : Cfg) (force : Bool) (st : PState) : Except String PState := do
  let lastI : Int ←
    if 1 < st.level.length then do
      let lv1 ← need (pyIdx st.level 1)
      let c ← need (pyIdx st.chunks (lv1 : Int))
      pure (c - 1)
    else
      pure ((st.out.length : Int) - 1)
  if lastI < 0 then
    pure st
  else do
    let last := lastI.toNat
    if st.out.length ≤ last then
      Except.error ("list index out of range")
    else do
      let l := sumLens (st.out.take (last + 1))
      let out1 :=
        if !force && l ≤ cfg.linelength then
          let extra := cfg.linelength - l
          if 0 < extra && !cfg.opt_ragged then
            let exp := (st.out.take (last + 1)).foldl
              (fun a r => a + (if r.h = 0 then countChar ' ' r.s else 0)) 0
            if exp ≠ 0 then
              let re_val := extra % exp
              let fr := (extra - re_val) / exp
              (pyFor (last + 1) (fun i acc =>
                  let r := acc.2.getD i emptyRec
                  if r.h = 0 then
                    let e := expandSpaces fr re_val acc.1 r.s.data
                    (e.1, acc.2.set i (string2record false (ofChars e.2)))
                  else acc)
                (((0, 0) : Nat × Nat), st.out)).2
            else st.out
          else st.out
        else st.out
      let joined := pyFor last
        (fun i acc => join_records acc (out1.getD (i + 1) emptyRec))
        (out1.getD 0 emptyRec)
      let printed' :=
        match printrecord joined with
        | some line => st.printed ++ [line]
        | none => st.printed
      let oc :=
        if last + 1 < out1.length then
          (out1.drop (last + 1), st.chunks.map (fun c => c - ((last : Int) + 1)))
        else (([] : List Rec), st.chunks)
      let chunks3 ←
        if 1 < st.level.length then do
          let lv1 ← need (pyIdx st.level 1)
          pure (oc.2.take 1 ++ oc.2.drop lv1)
        else pure ([(0 : Int)])
      pure ⟨st.level, chunks3, oc.1, st.wait, st.action, st.tokenByToken,
            st.par, 0, printed'⟩

/-- Python s.rfind(chr(32), 0, hi): highest index of a space before the
normalised bound, or -1. -/
def pyRfindSpace (s : String) (hi : Int) : Int :=
  let stop := pySliceNorm s.data.length hi
  match ((s.data.take stop).reverse.findIdx? (fun c => c = ' ')) with
  | some k => (stop : Int) - 1 - k
  | none => -1

/-- The h < 2 while loop of output.prepare_cut: break the record at the
last space fitting in the remaining room, print, and continue with the
remainder on a fresh line. -/
def prepCutLoop1 (fuel : Nat) (cfg : Cfg) (rec : Rec) (lenrem : Int)
    (st : PState) : Except String (Rec × Int × PState) :=
  match fuel with
  | 0 => Except.error ("fuel")
  | fuel + 1 =>
    if lenrem < (rec.l : Int) then
      let idx := pyRfindSpace rec.s lenrem
      if -1 < idx then do
        let p := cut (idx + 1).toNat rec
        let st1 := withOut st (st.out ++ [p.1])
        let st2 := withCur st1 (st1.curlength + (idx + 1))
        let st3 ← do_print cfg false st2
        prepCutLoop1 fuel cfg p.2 (cfg.linelength : Int) st3
      else pure (rec, lenrem, st)
    else pure (rec, lenrem, st)

/-- The final while loop of output.prepare_cut: repeatedly slice the
record to the line width and print. -/
def prepCutLoop2 (fuel : Nat) (cfg : Cfg) (rec : Rec) (st : PState) :
    Except String (Rec × PState) :=
  match fuel with
  | 0 => Except.error ("fuel")
  | fuel + 1 =>
    if cfg.linelength < rec.l then do
      let p := cut cfg.linelength rec
      let st1 := withOut st [p.1]
      let st2 ← do_print cfg false st1
      prepCutLoop2 fuel cfg p.2 st2
    else pure (rec, st)

/-- output.prepare_cut(rec): word-aware line breaking of an over-long
record at the top level.  The Python call cut(lenrem, ...) receives an
int; a negative lenrem (unreachable in the modelled scenarios) is
clamped to 0 here. -/
def prepare_cut (fuel : Nat) (cfg : Cfg) (rec : Rec) (st : PState) :
    Except String (Rec × PState) := do
  if st.level.length ≠ 1 then pure (rec, st)
  else do
    let lenrem : Int := (cfg.linelength : Int) - st.curlength
    if (rec.l : Int) + st.curlength ≤ (cfg.linelength : Int) then pure (rec, st)
    else do
      let r1 ←
        if rec.h < 2 then prepCutLoop1 fuel cfg rec lenrem st
        else pure (rec, lenrem, st)
      let (rec1, lenrem1, st1) := r1
      let r2 ←
        if (cfg.linelength : Int) < (rec1.l : Int) ∧ lenrem1 ≠ 0 then do
          let p := cut lenrem1.toNat rec1
          let stA := withOut st1 (st1.out ++ [p.1])
          let stB := withCur stA (stA.curlength + lenrem1)
          let stC ← do_print cfg false stB
          pure (p.2, stC)
        else pure (rec1, st1)
      let (rec2, st2) := r2
      let st3 ← do_print cfg false st2
      let r3 ← prepCutLoop2 fuel cfg rec2 st3
      pure (r3.1, withCur r3.2 0)

/-- stack.assertHave(n): whether the current group owns at least n chunks
(len(chunks) - level[-1] >= n, over Python ints). -/
def assertHave (n : Nat) (st : PState) : Except String Bool := do
  let lv ← need (pyIdx st.level (-1))
  pure (decide ((n : Int) ≤ (st.chunks.length : Int) - (lv : Int)))

/-- stack.trim_beg(idx): left-strip a single-line record in the buffer;
all out-of-range indices are guarded in the source. -/
def trim_beg (idx : Int) (st : PState) : PState :=
  if st.out = [] ∨ idx < 0 ∨ (st.out.length : Int) ≤ idx then st
  else
    let r := (pyIdx st.out idx).getD emptyRec
    if r.h = 0 then
      withOut st (st.out.set idx.toNat (string2record false (pyLstrip r.s)))
    else st

/-- stack.trim_end(idx): right-strip a single-line record in the buffer. -/
def trim_end (idx : Int) (st : PState) : PState :=
  if st.out = [] ∨ idx < 0 ∨ (st.out.length : Int) ≤ idx then st
  else
    let r := (pyIdx st.out idx).getD emptyRec
    if r.h = 0 then
      withOut st (st.out.set idx.toNat (string2record false (pyRstrip r.s)))
    else st

/-- stack.trim_one(n): strip both ends of chunk n. -/
def trim_one (n : Int) (st : PState) : Except String PState := do
  let c ← need (pyIdx st.chunks n)
  let st1 := trim_beg c st
  if n = (st1.chunks.length : Int) - 1 then
    pure (trim_end ((st1.out.length : Int) - 1) st1)
  else do
    let c2 ← need (pyIdx st1.chunks (n + 1))
    pure (trim_end (c2 - 1) st1)

/-- stack.trim(n): strip the last n chunks
(for i in range(len(chunks) - n, len(chunks))). -/
def trim (n : Nat) (st : PState) : Except String PState :=
  let len := st.chunks.length
  pyForM n (fun k s => trim_one ((len : Int) - (n : Int) + (k : Int)) s) st

/-- stack.collapseOne(n): join all records of chunk n into one. -/
def collapseOne (n : Int) (st : PState) : Except String PState :=
  if (st.chunks.length : Int) ≤ n then pure st
  else do
    let last : Int ←
      if n = (st.chunks.length : Int) - 1 then pure ((st.out.length : Int) - 1)
      else do
        let c ← need (pyIdx st.chunks (n + 1))
        pure (c - 1)
    let start ← need (pyIdx st.chunks n)
    if last ≤ start then pure st
    else do
      let first ← need (pyIdx st.out start)
      let joined ← pyForM (last - start).toNat
        (fun k acc => do
          let r ← need (pyIdx st.out (start + 1 + (k : Int)))
          pure (join_records acc r))
        first
      pure (withOut st (pySplice st.out start (last + 1) [joined]))

/-- stack.collapse(n): collapse the last n chunks and re-point the chunk
boundaries at the collapsed records. -/
def collapse (n : Nat) (st : PState) : Except String PState := do
  let lv ← need (pyIdx st.level (-1))
  let hv : Int := (st.chunks.length : Int) - (lv : Int)
  let nI : Int := if hv < (n : Int) then hv else (n : Int)
  if 0 < nI then do
    let st1 ← pyForM nI.toNat
      (fun i s => collapseOne ((s.chunks.length : Int) - 1 - (i : Int)) s) st
    pyForM (nI.toNat - 1)
      (fun k s => do
        let i : Int := (k : Int) + 1
        let base ← need (pyIdx s.chunks ((s.chunks.length : Int) - nI))
        let upd ← need (pySetI s.chunks ((s.chunks.length : Int) - i)
          (base + nI - i))
        pure (withChunks s upd))
      st1
  else pure st

/-- Commands that f_fraction does not put a space before
(math_ops.f_fraction no_space_cmds). -/
def noSpaceCmds : List String :=
  ["right", "end", "bigr", "Bigr", "biggr", "Biggr",
   "cdot", "cdots", "times", "div", "pm", "mp",
   "cap", "cup", "wedge", "vee", "oplus", "otimes", "ominus"]

/-- unicodedata.category(c).startswith(chr(76)) as used by f_fraction,
modelled for the ASCII letters the scenario exercises. -/
def isLetterCat (c : Char) : Bool := c.isAlpha

/-- Characters after which f_fraction adds no leading space. -/
def noLeadSpaceChars : List Char := ['+', '-', '=', '(', '<', '[', '{']

/-- Characters before which f_fraction adds no trailing space. -/
def noTrailSpaceChars : List Char :=
  ['+', '-', '=', ')', '>', ']', '}', '^', '_', ',', ';', ':', '\\', ' ']

/-- ASCII letters, as matched by the regex class a-zA-Z. -/
def isAsciiAlpha (c : Char) : Bool := c.isAlpha

mutual

/-- stack.commit(rec): append a record to the output buffer (line-breaking
at the top level), track the chunk boundary, and fire the waiting
group action when its chunk count is reached. -/
def commit (fuel : Nat) (cfg : Cfg) (rec : Rec) (st : PState) :
    Except String PState :=
  match fuel with
  | 0 => Except.error ("fuel")
  | fuel + 1 => do
    let rs ←
      if st.level.length = 1 then
        if (cfg.linelength : Int) < st.curlength + (rec.l : Int) then do
          let p ← prepare_cut fuel cfg rec st
          pure (p.1, withCur p.2 (p.2.curlength + (p.1.l : Int)))
        else pure (rec, withCur st (st.curlength + (rec.l : Int)))
      else pure (rec, st)
    let (rec1, st1) := rs
    let out1 := st1.out ++ [rec1]
    let cl ← need (pyIdx st1.chunks (-1))
    let chunks1 :=
      if ((out1.length : Int) - 1) ≠ cl then
        st1.chunks ++ [((out1.length : Int) - 1)]
      else st1.chunks
    let st2 := withChunks (withOut st1 out1) chunks1
    if 1 < st2.level.length then do
      let w ← need (pyIdx st2.wait ((st2.level.length : Int) - 1))
      let lv ← need (pyIdx st2.level ((st2.level.length : Int) - 1))
      let target : Int := (st2.chunks.length : Int) - (lv : Int)
      match w with
      | Evt.n k =>
        if (k : Int) = target then do
          let sub ← need (pyIdx st2.action ((st2.level.length : Int) - 1))
          if sub = "" then finish fuel cfg w false st2
          else callsub fuel cfg sub st2
        else pure st2
      | Evt.s _ => pure st2
    else pure st2

/-- stack.finish(event, force_one_group): close the current group.  The
event argument is never inspected by the Python body; the function
returns unchanged when at most one level is open, otherwise pops the
group, re-commits a level-2 group at the top level, and recursively
fires the parent group when its chunk count is reached. -/
def finish (fuel : Nat) (cfg : Cfg) (_event : Evt) (force_one : Bool)
    (st : PState) : Except String PState :=
  match fuel with
  | 0 => Except.error ("fuel")
  | fuel + 1 =>
    if st.level.length ≤ 1 then pure st
    else do
      let lvLast ← need (pyIdx st.level (-1))
      let cAt ← need (pyIdx st.chunks (lvLast : Int))
      let out1 := if (st.out.length : Int) < cAt then st.out ++ [emptyRec]
        else st.out
      let chunks1 := st.chunks.take (lvLast + 1)
      let tOut ←
        if st.level.length = 2 ∧ ¬force_one then do
          let cl ← need (pyIdx chunks1 (-1))
          pure ((pyDropI out1 cl, pyTakeI out1 cl))
        else pure ((([] : List Rec), out1))
      let level2 ← need (pyPop st.level)
      let action2 ← need (pyPop st.action)
      let tbt2 ← need (pyPop st.tokenByToken)
      let wait2 ← need (pyPop st.wait)
      let st2 : PState := ⟨level2, chunks1, tOut.2, wait2, action2, tbt2,
        st.par, st.curlength, st.printed⟩
      let st3 ←
        if st2.level.length = 1 ∧ ¬force_one then
          tOut.1.foldlM (fun s r => commit fuel cfg r s) st2
        else pure st2
      if 1 < st3.level.length then do
        let w ← need (pyIdx st3.wait (-1))
        let lv ← need (pyIdx st3.level (-1))
        let target : Int := (st3.chunks.length : Int) - (lv : Int)
        match w with
        | Evt.n k =>
          if (k : Int) = target then do
            let sub ← need (pyIdx st3.action (-1))
            if sub = "" then finish fuel cfg w false st3
            else callsub fuel cfg sub st3
          else pure st3
        | Evt.s _ => pure st3
      else pure st3

/-- stack.callsub(sub): dispatch a completion callback by name.  The
builders reached in the modelled scenarios are f_fraction and
f_widehat; for any other name the Python lookup either finds a handler
outside the modelled fragment or silently does nothing. -/
def callsub (fuel : Nat) (cfg : Cfg) (sub : String) (st : PState) :
    Except String PState :=
  match fuel with
  | 0 => Except.error ("fuel")
  | fuel + 1 =>
    if sub = "f_fraction" then f_fraction fuel cfg st
    else if sub = "f_widehat" then f_widehat fuel cfg st
    else pure st

/-- math_ops.f_putover(rec): place an accent record over the collected
argument; checks assertHave(1) and abandons the construct via
finish(,True) when the check fails. -/
def f_putover (fuel : Nat) (cfg : Cfg) (rec : Rec) (no_finish : Bool)
    (st : PState) : Except String PState :=
  match fuel with
  | 0 => Except.error ("fuel")
  | fuel + 1 => do
    let st1 ← trim 1 st
    let st2 ← collapse 1 st1
    let ok ← assertHave 1 st2
    if !ok then finish fuel cfg (Evt.s "") true st2
    else do
      let r ← need (pyIdx st2.out (-1))
      let length := max r.l rec.l
      let b1 := if rec.h = 0 then 1 else rec.h
      let b := r.b + b1 + 1
      let newRec := setbaseline (vStack (center length rec) (center length r)) b
      let out2 ← need (pySetI st2.out (-1) newRec)
      let st3 := withOut st2 out2
      if !no_finish then finish fuel cfg (Evt.n 1) true st3 else pure st3

/-- math_ops.f_widehat(): wide hat accent.  Note that the collected
argument is read (state.out[-1]) before any assertHave check; the
IndexError this can raise is the none-result of the pyIdx read. -/
def f_widehat (fuel : Nat) (cfg : Cfg) (st : PState) : Except String PState :=
  match fuel with
  | 0 => Except.error ("fuel")
  | fuel + 1 => do
    let st1 ← trim 1 st
    let st2 ← collapse 1 st1
    let r ← need (pyIdx st2.out (-1))
    let l := r.l
    if l ≤ 1 then f_putover fuel cfg (string2record false (ofChars ['^'])) false st2
    else
      f_putover fuel cfg
        (string2record false
          (ofChars ('/' :: (List.replicate (l - 2) '~' ++ ['\\'])))) false st2

/-- math_ops.f_fraction(): build numerator over bar over denominator,
with the conditional leading/trailing space of the source; checks
assertHave(2) after trim/collapse and abandons gracefully when it
fails. -/
def f_fraction (fuel : Nat) (cfg : Cfg) (st : PState) : Except String PState :=
  match fuel with
  | 0 => Except.error ("fuel")
  | fuel + 1 => do
    let st1 ← trim 2 st
    let st2 ← collapse 2 st1
    let ok ← assertHave 2 st2
    if !ok then finish fuel cfg (Evt.s "") true st2
    else do
      let numer ← need (pyIdx st2.out (-2))
      let denom ← need (pyIdx st2.out (-1))
      let length := max numer.l denom.l
      let numer_centered := center length numer
      let denom_centered := center length denom
      let line_rec := string2record false (ofChars (List.replicate length '─'))
      let res0 := setbaseline (vStack (vStack numer_centered line_rec) denom_centered)
        (get_height numer_centered)
      let fgs : Int ←
        match pyIdx st2.level (-1) with
        | none => pure 0
        | some lv => do
          let c ← need (pyIdx st2.chunks (lv : Int))
          pure c
      let check_idx : Int := fgs - 1
      let res1 :=
        if 0 ≤ check_idx ∧ check_idx < (st2.out.length : Int) then
          let prev := (pyIdx st2.out check_idx).getD emptyRec
          if 0 < prev.l ∧ prev.s.data ≠ [] then
            if (prev.s.data.getLast?).getD ' ' ≠ ' ' then
              match (pyRstrip prev.s).data.getLast? with
              | some lastChar =>
                if !(noLeadSpaceChars.contains lastChar) then
                  join_records (string2record false (ofChars [' '])) res0
                else res0
              | none => res0
            else res0
          else res0
        else res0
      let next_content := pyLstrip st2.par
      let res2 :=
        match next_content.data with
        | [] => res1
        | c0 :: rest =>
          if c0 = '\\' then
            let cmd := ofChars (rest.takeWhile isAsciiAlpha)
            if cmd.data ≠ [] ∧ !(noSpaceCmds.contains cmd) then
              join_records res1 (string2record false (ofChars [' ']))
            else res1
          else if !(noTrailSpaceChars.contains c0) then
            if isLetterCat c0 || ['(', '[', '<'].contains c0 then
              join_records res1 (string2record false (ofChars [' ']))
            else res1
          else res1
      let out2 ← need (pySetI st2.out (-2) res2)
      let chunks2 ← need (pyPop st2.chunks)
      let out3 ← need (pyPop out2)
      finish fuel cfg (Evt.n 2) true
        (withOut (withChunks st2 chunks2) out3)

end

/-- commands.right(): handle an unmatched or matched closing delimiter:
finish the LeftRight scope (forced to one group), then trim and collapse
the last chunk. -/
def rightCmd (fuel : Nat) (cfg : Cfg) (st : PState) : Except String PState := do
  let st1 ← finish fuel cfg (Evt.s ("LeftRight")) true st
  let st2 ← trim 1 st1
  collapse 1 st2

/-- A character of the usualtokenclass (config.py): anything but the
special characters backslash dollar braces caret underscore tilde
ampersand at. -/
def usualChar (c : Char) : Bool :=
  !(['\\', '$', '{', '}', '^', '_', '~', '&', '@'].contains c)

/-- Python str.rstrip over a character list. -/
def rstripChars (l : List Char) : List Char :=
  (l.reverse.dropWhile isPyWs).reverse

/-- The multitokenpattern match of config.py at the head of the input:
a maximal run of usual characters, or a macro (backslash followed by one
non-letter or a letter run with trailing whitespace), or a double
dollar, or one special character.  Returns the matched piece and the
remaining input; none when the input is empty (no match). -/
def tokenizeMulti (l : List Char) : Option (List Char × List Char) :=
  match l with
  | [] => none
  | c :: rest =>
    if usualChar c then
      let run := (c :: rest).takeWhile usualChar
      some (run, (c :: rest).drop run.length)
    else if c = '\\' then
      match rest with
      | [] => some ([c], [])
      | d :: rest2 =>
        if isAsciiAlpha d then
          let letters := (d :: rest2).takeWhile isAsciiAlpha
          let afterL := (d :: rest2).drop letters.length
          let ws := afterL.takeWhile isPyWs
          some (c :: (letters ++ ws), afterL.drop ws.length)
        else some ([c, d], rest2)
    else if c = '$' then
      match rest with
      | d :: rest2 => if d = '$' then some ([c, d], rest2) else some ([c], rest)
      | [] => some ([c], [])
    else some ([c], rest)

/-- A user macro table: rstripped token characters to expansion text
(the zero-argument fragment of state.defs / state.type_table). -/
def lookupDef (defsT : List (List Char × List Char)) (key : List Char) :
    Option (List Char) :=
  (defsT.find? (fun p => p.1 == key)).map (fun p => p.2)

/-- takeWhile never lengthens a list. -/
def takeWhile_len_le (p : Char → Bool) (l : List Char) :
    (l.takeWhile p).length ≤ l.length := by
  simpa using (List.takeWhile_sublist p (l := l)).length_le

/-- dropWhile never lengthens a list. -/
def dropWhile_len_le (p : Char → Bool) (l : List Char) :
    (l.dropWhile p).length ≤ l.length := by
  simpa using (List.dropWhile_sublist p (l := l)).length_le

/-- Every match of tokenizeMulti is nonempty and consumes its length. -/
def tokenizeMulti_spec (l : List Char) (pr : List Char × List Char)
    (h : tokenizeMulti l = some pr) :
    pr.1 ≠ [] ∧ pr.1.length + pr.2.length = l.length := by
  match l with
  | [] => simp [tokenizeMulti] at h
  | c :: rest =>
    unfold tokenizeMulti at h
    by_cases hc : usualChar c
    · simp only [hc, if_pos, if_true] at h
      cases h
      refine ⟨?_, ?_⟩
      · simp [List.takeWhile]
        intro hh
        rw [hc] at hh
        simp at hh
      · have := takeWhile_len_le usualChar (c :: rest)
        simp at this ⊢
        omega
    · simp only [hc, if_false, Bool.false_eq_true] at h
      by_cases hb : c = '\\'
      · simp only [hb, if_pos] at h
        match rest with
        | [] =>
          cases h
          refine ⟨by simp, by simp⟩
        | d :: rest2 =>
          by_cases hd : isAsciiAlpha d
          · simp only [hd, if_pos, if_true] at h
            cases h
            refine ⟨by simp, ?_⟩
            have h1 := takeWhile_len_le isAsciiAlpha (d :: rest2)
            have h2 := takeWhile_len_le isPyWs
              ((d :: rest2).drop ((d :: rest2).takeWhile isAsciiAlpha).length)
            simp at h1 h2 ⊢
            omega
          · simp only [hd, if_false, Bool.false_eq_true] at h
            cases h
            refine ⟨by simp, by simp; omega⟩
      · simp only [hb, if_false] at h
        by_cases hdol : c = '$'
        · simp only [hdol, if_pos] at h
          match rest with
          | [] =>
            cases h
            refine ⟨by simp, by simp⟩
          | d :: rest2 =>
            by_cases hd2 : d = '$'
            · simp only [hd2, if_pos, if_true] at h
              cases h
              refine ⟨by simp, by simp; omega⟩
            · simp only [hd2, if_false, Bool.false_eq_true] at h
              cases h
              refine ⟨by simp, by simp; omega⟩
        · simp only [hdol, if_false] at h
          cases h
          refine ⟨by simp, by simp; omega⟩

/-- The per-paragraph parsing loop of parser.paragraph, restricted to the
fragment that decides the macro-expansion ceiling: usual runs and
unrecognised active tokens are emitted without touching the remaining
input, a def token increments the expansion counter, breaks out of the
loop once the counter exceeds the ceiling, and otherwise prepends its
expansion to the remaining input.  Returns the number of expansions
performed. -/
def parLoop (defsT : List (List Char × List Char)) (md : Nat)
    (par : List Char) (defcount : Nat) : Nat :=
  match htok : tokenizeMulti (par.dropWhile isPyWs) with
  | none => 0
  | some pr =>
    if usualChar (pr.1.headD ' ') then
      parLoop defsT md pr.2 defcount
    else
      match lookupDef defsT (rstripChars pr.1) with
      | some sub =>
        if md < defcount + 1 then 0
        else 1 + parLoop defsT md (sub ++ pr.2) (defcount + 1)
      | none => parLoop defsT md pr.2 defcount
termination_by (md + 1 - defcount, par.length)
decreasing_by
  · have hs := tokenizeMulti_spec _ _ htok
    have hd := dropWhile_len_le isPyWs par
    apply Prod.Lex.right
    have h1 : pr.1.length ≠ 0 := by
      intro hz
      exact hs.1 (List.eq_nil_of_length_eq_zero hz)
    omega
  · apply Prod.Lex.left
    omega
  · have hs := tokenizeMulti_spec _ _ htok
    have hd := dropWhile_len_le isPyWs par
    apply Prod.Lex.right
    have h1 : pr.1.length ≠ 0 := by
      intro hz
      exact hs.1 (List.eq_nil_of_length_eq_zero hz)
    omega

/-- The default configuration: 150-column lines, justification on. -/
def cfg150 : Cfg := ⟨150, false⟩

/-- An 8-column configuration for the justification scenario. -/
def cfgC1 : Cfg := ⟨8, false⟩

/-- Top-level state buffering the single reflowable record 0,5,0,2,a b c
(the text a b c with two expandable spaces), current length 5, as built
by committing that text at the top level of a paragraph. -/
def stC1 : PState :=
  ⟨[0], [0], [⟨0, 5, 0, 2, "a b c"⟩], [Evt.s ""], [""], [0], "", 5, []⟩

/-- The state in which the f_widehat callback fires with an empty output
buffer.  It is reached from the paragraph input
backslash noindent backslash widehat {}: noindent suppresses the
paragraph indent, widehat opens a one-chunk scope (no chunk boundary is
appended because out is empty), the empty brace group closes without
committing anything, and the parent trigger in finish calls f_widehat. -/
def stC3 : PState :=
  ⟨[0, 0], [0], [], [Evt.s "", Evt.n 1], ["", "f_widehat"], [0, 1], "", 0, []⟩

/-- The state in which the f_fraction callback fires for the paragraph
input backslash frac {a+b}{c}: the indent record was committed at the top
level, the sub2 scope for frac was opened (chunk boundary 1), and the two
brace-group arguments were committed as chunks 1 and 2. -/
def stC6 : PState :=
  ⟨[0, 1], [0, 1, 2],
   [⟨1, 5, 0, 0, "     "⟩, ⟨0, 3, 0, 0, "a+b"⟩, ⟨0, 1, 0, 0, "c"⟩],
   [Evt.s "", Evt.n 2], ["", "f_fraction"], [0, 1], "", 5, []⟩

/-- The state right after the input prefix backslash noindent { a, when a
stray backslash right arrives while the brace scope is still open. -/
def stC9 : PState :=
  ⟨[0, 0], [0], [⟨0, 1, 0, 0, "a"⟩], [Evt.s "", Evt.s "\x7d"], ["", ""],
   [0, 0], "", 0, []⟩

/-- A one-row left angle bracket record, as produced when rendering ⟨. -/
def recAngle : Rec := ⟨1, 1, 0, 0, "⟨"⟩

/-- A three-row record with baseline 1. -/
def recTall : Rec := ⟨3, 1, 1, 0, "a\nb\nc"⟩

/-- A one-row record whose content starts with the angle-bracket tip glyph
followed by further text; the regeneration heuristic misdetects it. -/
def c5aRec : Rec := ⟨1, 2, 0, 0, "⟨x"⟩

/-- Witness record: the reflowable text a b (one expandable space). -/
def recW1 : Rec := ⟨0, 3, 0, 1, "a b"⟩

/-- Witness record: the reflowable text c. -/
def recW2 : Rec := ⟨0, 1, 0, 0, "c"⟩

/-- Witness record: two rows ab over cd with baseline on the lower row. -/
def recW5a : Rec := ⟨2, 2, 1, 0, "ab\ncd"⟩

/-- Witness record: the single-row text x. -/
def recW5b : Rec := ⟨1, 1, 0, 0, "x"⟩

/-- Witness record: the reflowable text abc. -/
def recW8 : Rec := ⟨0, 3, 0, 0, "abc"⟩

/-- Witness record for cut: the text a b with one expandable space. -/
def recW10 : Rec := ⟨0, 3, 0, 1, "a b"⟩

/-- Witness state: top level with one committed record. -/
def stW9 : PState :=
  ⟨[0], [0], [⟨0, 1, 0, 0, "a"⟩], [Evt.s ""], [""], [0], "", 0, []⟩

theorem getD_eq_getElem? {α : Type} (l : List α) (i : Nat) (d : α) :
    l.getD i d = (l[i]?).getD d := by
  simp [List.getD]

theorem getD_set_self {α : Type} (l : List α) (i : Nat) (a d : α) (h : i < l.length) :
    (l.set i a).getD i d = a := by
  rw [getD_eq_getElem?]
  simp [List.getElem?_set_self, h]

theorem getD_set_ne {α : Type} (l : List α) (i j : Nat) (a d : α) (h : i ≠ j) :
    (l.set i a).getD j d = l.getD j d := by
  rw [getD_eq_getElem?, getD_eq_getElem?]
  rw [List.getElem?_set_ne h]

theorem pyFor_getD_invar {α : Type} (n j : Nat) (d : α)
    (body : Nat → List α → List α) (init : List α)
    (hb : ∀ i res, i < n → (body i res).getD j d = res.getD j d) :
    (pyFor n body init).getD j d = init.getD j d := by
  induction n with
  | zero => rfl
  | succ m ih =>
    show (body m (pyFor m body init)).getD j d = _
    rw [hb m _ (Nat.lt_succ_self m)]
    exact ih (fun i res hi => hb i res (Nat.lt_succ_of_lt hi))

theorem pyFor_length {α : Type} (n : Nat) (body : Nat → List α → List α)
    (init : List α)
    (hb : ∀ i res, i < n → (body i res).length = res.length) :
    (pyFor n body init).length = init.length := by
  induction n with
  | zero => rfl
  | succ m ih =>
    show (body m (pyFor m body init)).length = _
    rw [hb m _ (Nat.lt_succ_self m)]
    exact ih (fun i res hi => hb i res (Nat.lt_succ_of_lt hi))

theorem pyFor_getD_write {α : Type} (n j k : Nat) (d : α) (g : α → α)
    (body : Nat → List α → List α) (init : List α)
    (hk : k < n)
    (hother : ∀ i res, i < n → i ≠ k → (body i res).getD j d = res.getD j d)
    (hlen : ∀ i res, i < n → (body i res).length = res.length)
    (hwrite : ∀ res, res.length = init.length →
      (body k res).getD j d = g (res.getD j d)) :
    (pyFor n body init).getD j d = g (init.getD j d) := by
  induction n with
  | zero => omega
  | succ m ih =>
    by_cases hm : m = k
    · subst hm
      show (body m (pyFor m body init)).getD j d = _
      rw [hwrite _ (pyFor_length m body init
          (fun i res hi => hlen i res (Nat.lt_succ_of_lt hi)))]
      rw [pyFor_getD_invar m j d body init
          (fun i res hi => hother i res (Nat.lt_succ_of_lt hi) (by omega))]
    · have hk' : k < m := by omega
      show (body m (pyFor m body init)).getD j d = _
      rw [hother m _ (Nat.lt_succ_self m) hm]
      exact ih hk' (fun i res hi hne => hother i res (Nat.lt_succ_of_lt hi) hne)
        (fun i res hi => hlen i res (Nat.lt_succ_of_lt hi))

theorem strLen_pyLjust (w : Nat) (s : String) : strLen (pyLjust w s) = max w (strLen s) := by
  simp [pyLjust, strLen, ofChars]
  omega

theorem pyLjust_of_le (w : Nat) (s : String) (h : strLen s ≥ w) : pyLjust w s = s := by
  simp [pyLjust, strLen] at *
  rw [Nat.sub_eq_zero_of_le h]
  simp [ofChars]

theorem pyTake_of_ge (s : String) (n : Nat) (h : strLen s ≤ n) : pyTake s n = s := by
  simp [pyTake, strLen] at *
  rw [List.take_of_length_le h]
  simp [ofChars]

theorem joinPlace1_length (b b1 l1 h h1 : Nat) (lines1 : List String) :
    (joinPlace1 b b1 l1 h h1 lines1).length = h := by
  unfold joinPlace1
  rw [pyFor_length]
  · simp
  · intro i res _
    dsimp only
    split
    · simp
    · rfl

theorem joinPlace1_getD (b b1 l1 h h1 : Nat) (lines1 : List String)
    (hb1 : b1 < h1) (hbh : b < h) :
    (joinPlace1 b b1 l1 h h1 lines1).getD b "" = pyLjust l1 (lines1.getD b1 "") := by
  unfold joinPlace1
  rw [pyFor_getD_write h1 b b1 "" (fun _ => pyLjust l1 (lines1.getD b1 ""))]
  · exact hb1
  · intro i res _ hne
    dsimp only
    split
    · next hcond =>
      apply getD_set_ne
      omega
    · rfl
  · intro i res _
    dsimp only
    split
    · simp
    · rfl
  · intro res hlen
    dsimp only
    rw [if_pos (by omega)]
    have hidx : (((b : Int) - (b1 : Int) + (b1 : Int)).toNat) = b := by omega
    rw [hidx]
    apply getD_set_self
    simp at hlen
    omega

theorem joinPad_length (l1 h : Nat) (res0 : List String) :
    (joinPad l1 h res0).length = res0.length := by
  unfold joinPad
  rw [pyFor_length]
  intro i res _
  dsimp only
  split
  · simp
  · rfl

theorem joinPad_getD (l1 h b : Nat) (res0 : List String)
    (hb : b < h) (hl : res0.length = h) (hge : l1 ≤ strLen (res0.getD b "")) :
    (joinPad l1 h res0).getD b "" = res0.getD b "" := by
  unfold joinPad
  rw [pyFor_getD_write h b b ""
      (fun v => if strLen v < l1 then pyLjust l1 v else v)]
  · show (if strLen (res0.getD b "") < l1 then pyLjust l1 (res0.getD b "")
      else res0.getD b "") = res0.getD b ""
    rw [if_neg (by omega)]
  · exact hb
  · intro i res _ hne
    dsimp only
    split
    · exact getD_set_ne _ _ _ _ _ hne
    · rfl
  · intro i res _
    dsimp only
    split
    · simp
    · rfl
  · intro res hlen
    show _ = (if strLen (res.getD b "") < l1 then pyLjust l1 (res.getD b "")
      else res.getD b "")
    dsimp only
    by_cases hcond : strLen (res.getD b "") < l1
    · rw [if_pos hcond, if_pos hcond]
      exact getD_set_self _ _ _ _ (by omega)
    · rw [if_neg hcond, if_neg hcond]

theorem joinPlace2_getD (b b2 l1 h h2 : Nat) (lines2f res0 : List String)
    (hb2 : b2 < h2) (hbh : b < h) (hl : res0.length = h) :
    (joinPlace2 b b2 l1 h h2 lines2f res0).getD b "" =
      pyLjust l1 (pyTake (res0.getD b "") l1) ++ lines2f.getD b2 "" := by
  unfold joinPlace2
  rw [pyFor_getD_write h2 b b2 ""
      (fun v => pyLjust l1 (pyTake v l1) ++ lines2f.getD b2 "")]
  · exact hb2
  · intro i res _ hne
    dsimp only
    split
    · next hcond =>
      apply getD_set_ne
      omega
    · rfl
  · intro i res _
    dsimp only
    split
    · simp
    · rfl
  · intro res hlen
    dsimp only
    rw [if_pos (by omega)]
    have hidx : (((b : Int) - (b2 : Int) + (b2 : Int)).toNat) = b := by omega
    rw [hidx]
    apply getD_set_self
    omega

theorem joinHeight_gt (r1 r2 : Rec) (h1 : r1.b < hOf r1) (h2 : r2.b < hOf r2) :
    max r1.b r2.b < joinHeight r1 r2 := by
  simp only [joinHeight, joinB]
  omega

theorem joinLines_len (r : Rec) : hOf r ≤ (joinLines r).length := by
  unfold joinLines padTo
  simp
  omega

theorem foldl_max_init_le (l : List Nat) (init : Nat) : init ≤ l.foldl max init := by
  induction l generalizing init with
  | nil => simp
  | cons x xs ih =>
    exact le_trans (le_max_left init x) (ih (max init x))

theorem foldl_max_ge_mem (l : List Nat) (init a : Nat) (ha : a ∈ l) :
    a ≤ l.foldl max init := by
  induction l generalizing init with
  | nil => cases ha
  | cons x xs ih =>
    rcases List.mem_cons.mp ha with h | h
    · subst h
      exact le_trans (le_max_right init a) (foldl_max_init_le xs _)
    · exact ih _ h

theorem foldl_max_le (l : List Nat) (init m : Nat) (hi : init ≤ m)
    (h : ∀ a ∈ l, a ≤ m) : l.foldl max init ≤ m := by
  induction l generalizing init with
  | nil => simpa
  | cons x xs ih =>
    exact ih _ (max_le hi (h x (List.mem_cons_self x xs)))
      (fun a ha => h a (List.mem_cons_of_mem x ha))

theorem getD_map_range {α : Type} (h r : Nat) (f : Nat → α) (d : α) (hr : r < h) :
    (((List.range h).map f).getD r d) = f r := by
  rw [getD_eq_getElem?]
  simp [List.getElem?_map, List.getElem?_range, hr]

theorem distMaxL (h b : Nat) (hh : 1 ≤ h) (hb : b < h) :
    listMax ((List.range h).map (fun r => natDist r b + 1)) = max b (h - b - 1) + 1 := by
  apply Nat.le_antisymm
  · apply foldl_max_le
    · omega
    · intro a ha
      rcases List.mem_map.mp ha with ⟨r, hr, rfl⟩
      have := List.mem_range.mp hr
      unfold natDist
      omega
  · by_cases hc : h - b - 1 ≤ b
    · have he : max b (h - b - 1) + 1 = natDist 0 b + 1 := by
        unfold natDist
        omega
      rw [he]
      exact foldl_max_ge_mem _ _ _
        (List.mem_map_of_mem _ (List.mem_range.mpr (by omega)))
    · have he : max b (h - b - 1) + 1 = natDist (h - 1) b + 1 := by
        unfold natDist
        omega
      rw [he]
      exact foldl_max_ge_mem _ _ _
        (List.mem_map_of_mem _ (List.mem_range.mpr (by omega)))

theorem distMaxR (h b : Nat) (hb : b < h) :
    listMax ((List.range h).map (fun r => max b (h - b - 1) + 1 - natDist r b)) =
      max b (h - b - 1) + 1 := by
  apply Nat.le_antisymm
  · apply foldl_max_le
    · omega
    · intro a ha
      rcases List.mem_map.mp ha with ⟨r, hr, rfl⟩
      omega
  · have he : max b (h - b - 1) + 1 =
        max b (h - b - 1) + 1 - natDist b b := by
      unfold natDist
      omega
    conv_lhs => rw [he]
    exact foldl_max_ge_mem _ _ _
      (List.mem_map_of_mem _ (List.mem_range.mpr hb))

theorem data_spaces_append (n : Nat) (c : Char) :
    (spaces n ++ ofChars [c]).data = List.replicate n ' ' ++ [c] := by
  simp [spaces, ofChars]

theorem strLen_spaces_append (n : Nat) (c : Char) :
    strLen (spaces n ++ ofChars [c]) = n + 1 := by
  unfold strLen
  rw [data_spaces_append]
  simp

theorem rangeMapNe {α : Type} (h : Nat) (hh : 1 ≤ h) (f : Nat → α) :
    ¬((List.range h).map f = []) := by
  simp
  omega

theorem c7L_eq (h b : Nat) (hh : 1 ≤ h) (hb : b < h) :
    regenerate_angle_bracket (ofChars ['<']) h b =
      ((List.range h).map (fun row => pyLjust (max b (h - b - 1) + 1)
        (spaces (natDist row b) ++
          ofChars [(if row < b then '⧸' else if row = b then '⟨' else '⧹')])),
       max b (h - b - 1) + 1) := by
  have hcond : ((ofChars ['<'] : String) = ofChars ['<']) = True := by simp
  simp only [regenerate_angle_bracket, hcond, if_true]
  rw [if_neg (rangeMapNe h hh _)]
  simp only [List.map_map, Function.comp_def]
  rw [List.map_congr_left (g := fun r => natDist r b + 1)
    (fun r _ => strLen_spaces_append (natDist r b)
      (if r < b then '⧸' else if r = b then '⟨' else '⧹'))]
  rw [distMaxL h b hh hb]

theorem c7R_eq (h b : Nat) (hh : 1 ≤ h) (hb : b < h) :
    regenerate_angle_bracket (ofChars ['>']) h b =
      ((List.range h).map (fun row => pyLjust (max b (h - b - 1) + 1)
        (spaces (max b (h - b - 1) + 1 - 1 - natDist row b) ++
          ofChars [(if row < b then '⧹' else if row = b then '⟩' else '⧸')])),
       max b (h - b - 1) + 1) := by
  have hcond : ((ofChars ['>'] : String) = ofChars ['<']) = False :=
    eq_false (by decide)
  simp only [regenerate_angle_bracket, hcond, if_false]
  rw [if_neg (rangeMapNe h hh _)]
  simp only [List.map_map, Function.comp_def]
  rw [List.map_congr_left (g := fun r => max b (h - b - 1) + 1 - natDist r b)
    (fun r hr => by
      show strLen (spaces (max b (h - b - 1) + 1 - 1 - natDist r b) ++
          ofChars [(if r < b then '⧹' else if r = b then '⟩' else '⧸')]) =
        max b (h - b - 1) + 1 - natDist r b
      rw [strLen_spaces_append (max b (h - b - 1) + 1 - 1 - natDist r b)
        (if r < b then '⧹' else if r = b then '⟩' else '⧸')]
      have hrh := List.mem_range.mp hr
      unfold natDist
      omega)]
  rw [distMaxR h b hb]

theorem pyLjust_spaces_data (W d : Nat) (c : Char) (hd : d + 1 ≤ W) :
    (pyLjust W (spaces d ++ ofChars [c])).data =
      List.replicate d ' ' ++ c :: List.replicate (W - 1 - d) ' ' := by
  unfold pyLjust
  rw [data_spaces_append]
  have h1 : (List.replicate d ' ' ++ [c]).length = d + 1 := by simp
  rw [h1]
  have h2 : W - (d + 1) = W - 1 - d := by omega
  rw [h2]
  simp [ofChars]

theorem parLoop_le (defsT : List (List Char × List Char)) (md : Nat) :
    ∀ (n : Nat) (par : List Char) (dc : Nat), md ≤ dc + n →
      parLoop defsT md par dc ≤ n := by
  intro n
  induction n with
  | zero =>
    intro par dc hmd
    suffices key : ∀ (L : Nat) (q : List Char), q.length ≤ L →
        parLoop defsT md q dc ≤ 0 from key par.length par le_rfl
    intro L
    induction L with
    | zero =>
      intro q hq
      rw [parLoop]
      split
      · omega
      · next pr htok =>
        have hs := tokenizeMulti_spec _ _ htok
        have hd := dropWhile_len_le isPyWs q
        have h1 : pr.1.length ≠ 0 := by
          intro hz
          exact hs.1 (List.eq_nil_of_length_eq_zero hz)
        omega
    | succ L ihL =>
      intro q hq
      rw [parLoop]
      split
      · omega
      · next pr htok =>
        have hs := tokenizeMulti_spec _ _ htok
        have hd := dropWhile_len_le isPyWs q
        have h1 : pr.1.length ≠ 0 := by
          intro hz
          exact hs.1 (List.eq_nil_of_length_eq_zero hz)
        split
        · exact ihL pr.2 (by omega)
        · split
          · rw [if_pos (by omega)]
          · exact ihL pr.2 (by omega)
  | succ m ihn =>
    intro par dc hmd
    suffices key : ∀ (L : Nat) (q : List Char), q.length ≤ L →
        parLoop defsT md q dc ≤ m + 1 from key par.length par le_rfl
    intro L
    induction L with
    | zero =>
      intro q hq
      rw [parLoop]
      split
      · omega
      · next pr htok =>
        have hs := tokenizeMulti_spec _ _ htok
        have hd := dropWhile_len_le isPyWs q
        have h1 : pr.1.length ≠ 0 := by
          intro hz
          exact hs.1 (List.eq_nil_of_length_eq_zero hz)
        omega
    | succ L ihL =>
      intro q hq
      rw [parLoop]
      split
      · omega
      · next pr htok =>
        have hs := tokenizeMulti_spec _ _ htok
        have hd := dropWhile_len_le isPyWs q
        have h1 : pr.1.length ≠ 0 := by
          intro hz
          exact hs.1 (List.eq_nil_of_length_eq_zero hz)
        split
        · exact ihL pr.2 (by omega)
        · split
          · next sub hsub =>
            split
            · omega
            · have := ihn (sub ++ pr.2) (dc + 1) (by omega)
              omega
          · exact ihL pr.2 (by omega)

theorem finish_top (fuel : Nat) (cfg : Cfg) (ev : Evt) (fo : Bool) (st : PState)
    (h1 : st.level.length ≤ 1) :
    finish (fuel + 1) cfg ev fo st = Except.ok st := by
  rw [finish]
  rw [if_pos h1]
  rfl

theorem trim_beg_fields (i : Int) (st : PState) :
    (trim_beg i st).chunks = st.chunks ∧ (trim_beg i st).level = st.level ∧
    (trim_beg i st).out.length = st.out.length ∧
    (trim_beg i st).printed = st.printed := by
  unfold trim_beg
  split
  · exact ⟨rfl, rfl, rfl, rfl⟩
  · dsimp only
    split
    · exact ⟨rfl, rfl, by simp [withOut], rfl⟩
    · exact ⟨rfl, rfl, rfl, rfl⟩

theorem trim_end_fields (i : Int) (st : PState) :
    (trim_end i st).chunks = st.chunks ∧ (trim_end i st).level = st.level ∧
    (trim_end i st).out.length = st.out.length ∧
    (trim_end i st).printed = st.printed := by
  unfold trim_end
  split
  · exact ⟨rfl, rfl, rfl, rfl⟩
  · dsimp only
    split
    · exact ⟨rfl, rfl, by simp [withOut], rfl⟩
    · exact ⟨rfl, rfl, rfl, rfl⟩

theorem pyForM_one {α : Type} (f : Nat → α → Except String α) (a : α) :
    pyForM 1 f a = f 0 a := rfl

theorem need_some {α : Type} (o : Option α) (a : α) (h : o = some a) :
    need o = Except.ok a := by
  rw [h]
  rfl

theorem bind_ok {α β : Type} (a : α) (f : α → Except String β) :
    (Except.ok a : Except String α) >>= f = f a := rfl

theorem bind_pure_ex {α β : Type} (a : α) (f : α → Except String β) :
    (pure a : Except String α) >>= f = f a := rfl

theorem pyIdx_last (l : List Int) (h : l ≠ []) :
    ∃ v, pyIdx l ((l.length : Int) - ((1 : Nat) : Int) + ((0 : Nat) : Int)) = some v ∧ v ∈ l := by
  unfold pyIdx
  rw [if_pos (by
    have : 1 ≤ l.length := List.length_pos.mpr h
    omega)]
  have hlt : (((l.length : Int) - ((1 : Nat) : Int) + ((0 : Nat) : Int))).toNat < l.length := by
    have : 1 ≤ l.length := List.length_pos.mpr h
    omega
  exact ⟨_, List.getElem?_eq_getElem hlt, List.getElem_mem hlt⟩

theorem trim1_ok (st : PState) (h2 : st.chunks ≠ []) :
    ∃ st2, trim 1 st = Except.ok st2 ∧ st2.chunks = st.chunks ∧
      st2.level = st.level ∧ st2.out.length = st.out.length ∧
      st2.printed = st.printed := by
  obtain ⟨cv, hcv, _⟩ := pyIdx_last st.chunks h2
  have h1len : 1 ≤ st.chunks.length := List.length_pos.mpr h2
  refine ⟨trim_end (((trim_beg cv st).out.length : Int) - 1) (trim_beg cv st),
    ?_, ?_, ?_, ?_, ?_⟩
  · unfold trim
    rw [pyForM_one]
    unfold trim_one
    rw [need_some _ _ hcv, bind_ok]
    rw [if_pos (by rw [(trim_beg_fields cv st).1]; omega)]
    rfl
  · rw [(trim_end_fields _ _).1, (trim_beg_fields _ _).1]
  · rw [(trim_end_fields _ _).2.1, (trim_beg_fields _ _).2.1]
  · rw [(trim_end_fields _ _).2.2.1, (trim_beg_fields _ _).2.2.1]
  · rw [(trim_end_fields _ _).2.2.2, (trim_beg_fields _ _).2.2.2]

theorem pyIdx_bounds {α : Type} (l : List α) (i : Int) (h0 : 0 ≤ i)
    (hl : i < (l.length : Int)) : ∃ r, pyIdx l i = some r ∧ r ∈ l := by
  unfold pyIdx
  rw [if_pos h0]
  exact ⟨_, List.getElem?_eq_getElem (by omega), List.getElem_mem _⟩

theorem joinLoop_ok (out : List Rec) (start : Int) (cnt : Nat) (acc : Rec)
    (hok : ∀ k : Nat, k < cnt → start + 1 + (k : Int) < (out.length : Int))
    (h0 : 0 ≤ start) :
    ∃ j, pyForM cnt (fun k acc => do
        let r ← need (pyIdx out (start + 1 + (k : Int)))
        pure (join_records acc r)) acc = Except.ok j := by
  induction cnt with
  | zero => exact ⟨acc, rfl⟩
  | succ m ih =>
    obtain ⟨j, hj⟩ := ih (fun k hk => hok k (Nat.lt_succ_of_lt hk))
    obtain ⟨r, hr, _⟩ := pyIdx_bounds out (start + 1 + (m : Int)) (by omega)
      (hok m (Nat.lt_succ_self m))
    refine ⟨join_records j r, ?_⟩
    show (do
      let x ← pyForM m _ acc
      let r ← need (pyIdx out (start + 1 + (m : Int)))
      pure (join_records x r)) = _
    rw [hj, bind_ok, hr]
    rfl

theorem collapseOne_last_ok (st : PState) (h2 : st.chunks ≠ [])
    (h3 : ∀ x ∈ st.chunks, 0 ≤ x) :
    ∃ st3, collapseOne ((st.chunks.length : Int) - 1 - ((0 : Nat) : Int)) st =
        Except.ok st3 ∧
      st3.level = st.level ∧ st3.chunks = st.chunks ∧ st3.printed = st.printed := by
  have h1len : 1 ≤ st.chunks.length := List.length_pos.mpr h2
  obtain ⟨cv, hcv, hcvmem⟩ := pyIdx_bounds st.chunks
    ((st.chunks.length : Int) - 1 - ((0 : Nat) : Int)) (by omega) (by omega)
  have hcv0 : 0 ≤ cv := h3 cv hcvmem
  unfold collapseOne
  rw [if_neg (by omega)]
  rw [if_pos (by omega)]
  rw [bind_pure_ex]
  beta_reduce
  rw [need_some _ _ hcv, bind_ok]
  by_cases hle : (st.out.length : Int) - 1 ≤ cv
  · rw [if_pos hle]
    exact ⟨st, rfl, rfl, rfl, rfl⟩
  · rw [if_neg hle]
    obtain ⟨r0, hr0, _⟩ := pyIdx_bounds st.out cv hcv0 (by omega)
    rw [need_some _ _ hr0, bind_ok]
    obtain ⟨j, hj⟩ := joinLoop_ok st.out cv (((st.out.length : Int) - 1 - cv).toNat)
      r0 (by intro k hk; omega) hcv0
    rw [hj, bind_ok]
    exact ⟨_, rfl, rfl, rfl, rfl⟩

theorem collapse1_ok (st : PState) (h1 : st.level = [0]) (h2 : st.chunks ≠ [])
    (h3 : ∀ x ∈ st.chunks, 0 ≤ x) :
    ∃ st3, collapse 1 st = Except.ok st3 ∧ st3.level = st.level ∧
      st3.printed = st.printed := by
  have h1len : 1 ≤ st.chunks.length := List.length_pos.mpr h2
  have hlv : pyIdx st.level (-1) = some 0 := by rw [h1]; rfl
  obtain ⟨st3, hco, hl3, hc3, hp3⟩ := collapseOne_last_ok st h2 h3
  refine ⟨st3, ?_, hl3, hp3⟩
  unfold collapse
  rw [need_some _ _ hlv, bind_ok]
  dsimp only
  rw [if_neg (show ¬((st.chunks.length : Int) - ((0 : Nat) : Int) < ((1 : Nat) : Int))
    from by push_cast; omega)]
  rw [if_pos (show (0 : Int) < ((1 : Nat) : Int) from by omega)]
  have hred : (((1 : Nat) : Int)).toNat = 1 := rfl
  rw [hred, pyForM_one]
  rw [hco, bind_ok]
  rfl

/-- C1 (code_bug): the spec and the exp_sp_maker docstring promise that a
top-level flush with unexpanded width L at most the line width and at
least one expandable space inserts exactly linelength - L spaces so the
justified width equals the target exactly.  The closure counter c2 starts
at 0 and is only ever set to 0, so every space receives fr + 1 copies and
the remainder extra mod exp is lost: on the buffered line a b c (L = 5,
two expandable spaces) with line width 8, do_print prints a  b  c of
width 7, not 8. -/
theorem c1_justification_rounding_loss :
    sumLens stC1.out = 5 ∧
    (stC1.out.foldl (fun a r => a + (if r.h = 0 then countChar ' ' r.s else 0)) 0) = 2 ∧
    (do_print cfgC1 false stC1).toOption.map (fun s => s.printed) = some ["a  b  c"] ∧
    strLen "a  b  c" = 7 ∧ cfgC1.linelength = 8 := by
  decide

/-- C2 counterexample: join_records is not width-additive as claimed.
Joining the one-row angle bracket record with a three-row record triggers
the angle-bracket regeneration, which widens the bracket operand, so the
result width is 3 while the operand widths sum to 2. -/
theorem c2_width_counterexample :
    (join_records recAngle recTall).l = 3 ∧ recAngle.l + recTall.l = 2 ∧
      (join_records recAngle recTall).l ≠ recAngle.l + recTall.l := by
  decide

/-- C2 (amended): the expandable-space count of join_records(a, b) is
always the sum of the operand counts, and the width is the sum of the
operand widths whenever neither operand triggers the angle-bracket
regeneration heuristic (in particular whenever neither content holds an
angle tip glyph). -/
theorem c2_width_space_additivity (r1 r2 : Rec) :
    (join_records r1 r2).sp = r1.sp + r2.sp ∧
    (regenFires (joinHeight r1 r2) (hOf r1) r1.l (joinNl (joinLines r1)) = false →
     regenFires (joinHeight r1 r2) (hOf r2) r2.l (joinNl (joinLines r2)) = false →
     (join_records r1 r2).l = r1.l + r2.l) := by
  refine ⟨rfl, ?_⟩
  intro h1 h2
  show (joinT1 r1 r2).2.1 + (joinT2 r1 r2).2.1 = r1.l + r2.l
  simp only [joinT1, joinT2, h1, h2, Bool.false_eq_true, if_false]

/-- Witness for c2_width_space_additivity at concrete inputs. -/
theorem c2_width_space_additivity_witness :
    (join_records recW1 recW2).sp = recW1.sp + recW2.sp ∧
    (join_records recW1 recW2).l = recW1.l + recW2.l :=
  ⟨(c2_width_space_additivity recW1 recW2).1,
   (c2_width_space_additivity recW1 recW2).2 (by decide) (by decide)⟩

/-- C3 (code_bug): the claim says every construct builder first checks its
collected-chunk count before reading the arguments and abandons the
construct gracefully otherwise.  f_widehat reads state.out[-1] before any
assertHave check; in the reachable state stC3 (input
backslash noindent backslash widehat {}) the output buffer is empty and
the read raises an IndexError instead of abandoning the construct. -/
theorem c3_widehat_unchecked_read : f_widehat 100 cfg150 stC3 = Except.error ("list index out of range") := by
  rfl

/-- C4: the number of user macro expansions performed by one run of the
paragraph parsing loop never exceeds the configured ceiling maxdef
(default 400); when the counter would pass the ceiling the loop breaks,
truncating expansion instead of raising, and the loop is a total
function, so processing terminates even on self-referential macros. -/
theorem c4_macro_expansion_ceiling (defsT : List (List Char × List Char))
    (par : List Char) :
    parLoop defsT maxdef par 0 ≤ maxdef :=
  parLoop_le defsT maxdef maxdef par 0 (by omega)

/-- C5 counterexample: the result baseline is max of the operand baselines,
but the row of the left operand that was at its baseline is not placed on
the result baseline row: the regeneration heuristic misdetects the record
⟨x as an angle bracket and replaces its content, so result row 1 starts
with the regenerated tip row, not with the original baseline row ⟨x. -/
theorem c5_baseline_row_counterexample :
    (join_records c5aRec recTall).b = max c5aRec.b recTall.b ∧
    (joinRows c5aRec recTall).getD (max c5aRec.b recTall.b) "" = "⟨ b" ∧
    pyTake ((joinRows c5aRec recTall).getD (max c5aRec.b recTall.b) "") c5aRec.l ≠
      pyLjust c5aRec.l ((joinLines c5aRec).getD c5aRec.b "") := by
  decide

/-- C5 (amended): join_records(a, b) always has baseline
max(a.baseline, b.baseline); and when neither operand triggers the
angle-bracket regeneration, both operands are well-formed (baseline below
the effective height) and the left baseline row fits its declared width,
the result baseline row is exactly the left baseline row padded to the
left width followed by the right baseline row (an empty right baseline
row having been replaced by blanks). -/
theorem c5_join_baseline_alignment (r1 r2 : Rec) :
    (join_records r1 r2).b = max r1.b r2.b ∧
    (regenFires (joinHeight r1 r2) (hOf r1) r1.l (joinNl (joinLines r1)) = false →
     regenFires (joinHeight r1 r2) (hOf r2) r2.l (joinNl (joinLines r2)) = false →
     r1.b < hOf r1 → r2.b < hOf r2 →
     strLen ((joinLines r1).getD r1.b "") ≤ r1.l →
     (joinRows r1 r2).getD (max r1.b r2.b) "" =
       pyLjust r1.l ((joinLines r1).getD r1.b "") ++
       (if strLen ((joinLines r2).getD r2.b "") = 0 then spaces r2.l
        else (joinLines r2).getD r2.b "")) := by
  refine ⟨rfl, ?_⟩
  intro hf1 hf2 hwf1 hwf2 hlen
  have ht1 : joinT1 r1 r2 = (joinLines r1, r1.l, hOf r1, r1.b) := by
    simp only [joinT1, hf1, Bool.false_eq_true, if_false]
  have ht2 : joinT2 r1 r2 = (joinLines r2, r2.l, hOf r2, r2.b) := by
    simp only [joinT2, hf2, Bool.false_eq_true, if_false]
  have hbh := joinHeight_gt r1 r2 hwf1 hwf2
  have hlines2 : r2.b < (joinLines r2).length :=
    Nat.lt_of_lt_of_le hwf2 (joinLines_len r2)
  have hp1len : (joinPlace1 (max r1.b r2.b) r1.b r1.l (joinHeight r1 r2) (hOf r1)
      (joinLines r1)).length = joinHeight r1 r2 :=
    joinPlace1_length _ _ _ _ _ _
  have hp1 : (joinPlace1 (max r1.b r2.b) r1.b r1.l (joinHeight r1 r2) (hOf r1)
      (joinLines r1)).getD (max r1.b r2.b) "" =
      pyLjust r1.l ((joinLines r1).getD r1.b "") :=
    joinPlace1_getD _ _ _ _ _ _ hwf1 hbh
  unfold joinRows
  rw [ht1, ht2]
  unfold joinB
  dsimp only
  rw [joinPlace2_getD _ _ _ _ _ _ _ hwf2 hbh
      (by rw [joinPad_length, hp1len])]
  rw [joinPad_getD _ _ _ _ hbh hp1len
      (by rw [hp1, strLen_pyLjust]; omega)]
  rw [hp1]
  rw [pyTake_of_ge _ _ (by rw [strLen_pyLjust]; omega)]
  rw [pyLjust_of_le _ _ (by rw [strLen_pyLjust]; omega)]
  congr 1
  by_cases hemp : strLen ((joinLines r2).getD r2.b "") = 0
  · rw [if_pos hemp, if_pos ⟨hlines2, hemp⟩]
    exact getD_set_self _ _ _ _ hlines2
  · rw [if_neg hemp, if_neg (by intro hc; exact hemp hc.2)]

/-- Witness for c5_join_baseline_alignment at concrete inputs. -/
theorem c5_join_baseline_alignment_witness :
    (join_records recW5a recW5b).b = max recW5a.b recW5b.b ∧
    (joinRows recW5a recW5b).getD (max recW5a.b recW5b.b) "" =
      pyLjust recW5a.l ((joinLines recW5a).getD recW5a.b "") ++
      (if strLen ((joinLines recW5b).getD recW5b.b "") = 0 then spaces recW5b.l
       else (joinLines recW5b).getD recW5b.b "") :=
  ⟨(c5_join_baseline_alignment recW5a recW5b).1,
   (c5_join_baseline_alignment recW5a recW5b).2 (by decide) (by decide)
     (by decide) (by decide) (by decide)⟩

/-- C6: processing backslash frac {a+b}{c} (the collected-argument state
stC6 that the tokenizer produces at the start of a paragraph) builds a
fraction record of exactly three lines a+b, the dash rule ───, and the
centered  c , with width 3 and baseline at row 1, and closes the scope. -/
theorem c6_fraction_scenario :
    (f_fraction 100 cfg150 stC6).toOption.map (fun s => (s.out, s.level)) =
      some ([⟨1, 5, 0, 0, "     "⟩, ⟨3, 3, 1, 0, "a+b\n───\n c "⟩], [0]) ∧
    splitNl "a+b\n───\n c " = ["a+b", "───", " c "] := by
  decide

/-- C7: for every height h >= 1 and baseline b < h, the angle-bracket
generator produces h rows whose glyph sits at horizontal offset
abs (row - b) from the tip side (mirrored for the opposite direction),
places the tip character exactly on row b, and has width
max(b, h - b - 1) + 1. -/
theorem c7_angle_bracket_geometry (h b : Nat) (hh : 1 ≤ h) (hb : b < h) :
    (regenerate_angle_bracket (ofChars ['<']) h b).2 = max b (h - b - 1) + 1 ∧
    (regenerate_angle_bracket (ofChars ['>']) h b).2 = max b (h - b - 1) + 1 ∧
    ((regenerate_angle_bracket (ofChars ['<']) h b).1).length = h ∧
    ((regenerate_angle_bracket (ofChars ['>']) h b).1).length = h ∧
    (∀ r, r < h →
      (((regenerate_angle_bracket (ofChars ['<']) h b).1).getD r "").data =
        List.replicate (natDist r b) ' ' ++
          (if r < b then '⧸' else if r = b then '⟨' else '⧹') ::
          List.replicate (max b (h - b - 1) - natDist r b) ' ') ∧
    (∀ r, r < h →
      (((regenerate_angle_bracket (ofChars ['>']) h b).1).getD r "").data =
        List.replicate (max b (h - b - 1) - natDist r b) ' ' ++
          (if r < b then '⧹' else if r = b then '⟩' else '⧸') ::
          List.replicate (natDist r b) ' ') := by
  have hdle : ∀ r, r < h → natDist r b ≤ max b (h - b - 1) := by
    intro r hr
    unfold natDist
    omega
  rw [c7L_eq h b hh hb, c7R_eq h b hh hb]
  refine ⟨rfl, rfl, by simp, by simp, ?_, ?_⟩
  · intro r hr
    rw [getD_map_range h r _ _ hr]
    rw [pyLjust_spaces_data _ _ _ (by have := hdle r hr; omega)]
    have h3 : max b (h - b - 1) + 1 - 1 - natDist r b =
        max b (h - b - 1) - natDist r b := by omega
    rw [h3]
  · intro r hr
    rw [getD_map_range h r _ _ hr]
    rw [pyLjust_spaces_data _ _ _ (by omega)]
    have h4 : max b (h - b - 1) + 1 - 1 -
        (max b (h - b - 1) + 1 - 1 - natDist r b) = natDist r b := by
      have := hdle r hr
      omega
    rw [h4]
    have h5 : max b (h - b - 1) + 1 - 1 - natDist r b =
        max b (h - b - 1) - natDist r b := by omega
    rw [h5]

/-- Witness for c7_angle_bracket_geometry at concrete inputs. -/
theorem c7_angle_bracket_geometry_witness :
    (regenerate_angle_bracket (ofChars ['<']) 3 1).2 = max 1 (3 - 1 - 1) + 1 ∧
    ((regenerate_angle_bracket (ofChars ['>']) 3 1).1).length = 3 ∧
    (((regenerate_angle_bracket (ofChars ['<']) 3 1).1).getD 1 "").data =
      List.replicate (natDist 1 1) ' ' ++
        (if (1 : Nat) < 1 then '⧸' else if (1 : Nat) = 1 then '⟨' else '⧹') ::
        List.replicate (max 1 (3 - 1 - 1) - natDist 1 1) ' ' :=
  ⟨(c7_angle_bracket_geometry 3 1 (by decide) (by decide)).1,
   (c7_angle_bracket_geometry 3 1 (by decide) (by decide)).2.2.2.1,
   (c7_angle_bracket_geometry 3 1 (by decide) (by decide)).2.2.2.2.1 1 (by decide)⟩

/-- C8: center never truncates (center(w, r) returns r unchanged whenever
r.width >= w) and centering is idempotent: for w >= r.width,
center(w, center(w, r)) = center(w, r). -/
theorem c8_center_idempotent (w : Nat) (r : Rec) :
    (w ≤ r.l → center w r = r) ∧ (r.l ≤ w → center w (center w r) = center w r) := by
  have hfix : ∀ rr : Rec, w ≤ rr.l → center w rr = rr := by
    intro rr hle
    unfold center
    rw [if_pos (by omega)]
  have hlen : ∀ rr : Rec, rr.l < w → (center w rr).l = w := by
    intro rr hlt
    unfold center
    rw [if_neg (by omega)]
  constructor
  · exact hfix r
  · intro _
    rcases Nat.lt_or_ge r.l w with hlt | hge
    · exact hfix (center w r) (Nat.le_of_eq (hlen r hlt).symm)
    · rw [hfix r hge]
      exact hfix r hge

/-- Witness for c8_center_idempotent at concrete inputs. -/
theorem c8_center_idempotent_witness :
    center 2 recW8 = recW8 ∧ center 5 (center 5 recW8) = center 5 recW8 :=
  ⟨(c8_center_idempotent 2 recW8).1 (by decide),
   (c8_center_idempotent 5 recW8).2 (by decide)⟩

/-- C9 counterexample: a stray backslash right does not leave the state
unchanged when an unrelated scope is open: in the state reached inside an
open brace group, finish pops the brace scope (there is no matching-scope
search), so the close request has an effect. -/
theorem c9_right_pops_scope :
    stC9.level = [0, 0] ∧
    (rightCmd 100 cfg150 stC9).toOption.map (fun s => s.level) = some [0] := by
  decide

/-- C9 (amended): with no open scope (top level), a stray backslash right
is harmless: the finish call returns the state unchanged, and the whole
right handler returns without any exception, leaving the level stack and
the printed output untouched (the stray token is abandoned and
processing can continue). -/
theorem c9_right_graceful (fuel : Nat) (cfg : Cfg) (ev : Evt) (fo : Bool)
    (st : PState) (h1 : st.level = [0]) (h2 : st.chunks ≠ [])
    (h3 : ∀ x ∈ st.chunks, 0 ≤ x) :
    finish (fuel + 1) cfg ev fo st = Except.ok st ∧
    (rightCmd (fuel + 1) cfg st).toOption.map (fun s => (s.level, s.printed)) =
      some ([0], st.printed) := by
  have hfin : finish (fuel + 1) cfg ev fo st = Except.ok st :=
    finish_top fuel cfg ev fo st (by rw [h1]; simp)
  refine ⟨hfin, ?_⟩
  obtain ⟨st2, htr, hc2, hl2, _, hp2⟩ := trim1_ok st h2
  have h2' : st2.chunks ≠ [] := by rw [hc2]; exact h2
  have h3' : ∀ x ∈ st2.chunks, 0 ≤ x := by rw [hc2]; exact h3
  have h1' : st2.level = [0] := by rw [hl2]; exact h1
  obtain ⟨st3, hcol, hl3, hp3⟩ := collapse1_ok st2 h1' h2' h3'
  have hrc : rightCmd (fuel + 1) cfg st = Except.ok st3 := by
    unfold rightCmd
    rw [finish_top fuel cfg (Evt.s ("LeftRight")) true st (by rw [h1]; simp),
      bind_ok, htr, bind_ok, hcol]
  rw [hrc]
  show some (st3.level, st3.printed) = some ([0], st.printed)
  rw [hl3, h1', hp3, hp2]

/-- Witness for c9_right_graceful at concrete inputs. -/
theorem c9_right_graceful_witness :
    finish (99 + 1) cfg150 (Evt.s "x") false stW9 = Except.ok stW9 ∧
    (rightCmd (99 + 1) cfg150 stW9).toOption.map (fun s => (s.level, s.printed)) =
      some ([0], stW9.printed) :=
  c9_right_graceful 99 cfg150 (Evt.s "x") false stW9 (by decide) (by decide)
    (by decide)

/-- C10: cut(n, r) returns (r, empty) when n exceeds r.width; otherwise the
left part has width exactly n and the right part width r.width - n, the
height and baseline are preserved, every line is sliced at column n (the
single raw line when the height field is 0), and the expandable-space
count of both parts is reset to 0 even when r had a nonzero count. -/
theorem c10_cut_spec (n : Nat) (r : Rec) :
    (r.l < n → cut n r = (r, emptyRec)) ∧
    (n ≤ r.l →
      (cut n r).1.l = n ∧ (cut n r).2.l = r.l - n ∧
      (cut n r).1.sp = 0 ∧ (cut n r).2.sp = 0 ∧
      (cut n r).1.h = r.h ∧ (cut n r).2.h = r.h ∧
      (cut n r).1.b = r.b ∧ (cut n r).2.b = r.b ∧
      (r.h ≠ 0 →
        (cut n r).1.s = joinNl ((padTo r.h (if r.s.data = [] then List.replicate r.h "" else splitNl r.s)).map
          (fun line => pyTake line n)) ∧
        (cut n r).2.s = joinNl ((padTo r.h (if r.s.data = [] then List.replicate r.h "" else splitNl r.s)).map
          (fun line => pyDrop line n))) ∧
      (r.h = 0 → (cut n r).1.s = pyTake r.s n ∧ (cut n r).2.s = pyDrop r.s n)) := by
  constructor
  · intro hlt
    unfold cut
    rw [if_pos hlt]
  · intro hle
    unfold cut
    rw [if_neg (by omega)]
    by_cases hh : r.h = 0
    · simp only [hh]
      simp
    · simp only [hh]
      simp [hh]

/-- Witness for c10_cut_spec at concrete inputs. -/
theorem c10_cut_spec_witness :
    cut 5 recW10 = (recW10, emptyRec) ∧
    (cut 2 recW10).1.l = 2 ∧ (cut 2 recW10).2.sp = 0 ∧
    (cut 2 recW10).1.s = pyTake recW10.s 2 :=
  ⟨(c10_cut_spec 5 recW10).1 (by decide),
   ((c10_cut_spec 2 recW10).2 (by decide)).1,
   ((c10_cut_spec 2 recW10).2 (by decide)).2.2.2.1,
   (((c10_cut_spec 2 recW10).2 (by decide)).2.2.2.2.2.2.2.2.2 (by decide)).1⟩
